import Mathlib

/-!
Verification of the OSS MCP server core (services/oss.service.ts and
server.ts) against its natural-language specification.

The embedding is shallow: the remote object store is an association list
from keys to object records, every store call issued by the service is
recorded in an explicit trace, and the stateful client cache is passed
as explicit state.  Client construction (the ali-oss SDK constructor,
which the source wraps in try/catch) is a parameter of type
OssConfig -> Nat -> Option Client so that both the succeeding and the
throwing constructor are covered; the Nat argument is a construction
counter used to model reference identity of constructed clients.
The configuration map (config/oss.config.ts, not part of the sources)
is modelled per the spec as a read-only injected mapping from names to
configurations.
-/

namespace OssMcp

/-- StoreConfig record: region, accessKeyId, accessKeySecret, bucket, endpoint. -/
structure OssConfig where
  region : String
  accessKeyId : String
  accessKeySecret : String
  bucket : String
  endpoint : String
deriving DecidableEq, Repr

/-- An authenticated store client.  The id field records which construction
event produced the client, modelling reference identity: two clients are the
identical instance exactly when their ids coincide. -/
structure Client where
  cfg : OssConfig
  id : Nat
deriving DecidableEq, Repr

/-- The mutable state of OssService: the clients cache (a map from
configuration name to client, embedded as an association list) plus a
counter of construction events. -/
structure SvcState where
  clients : List (String × Client)
  counter : Nat
deriving DecidableEq, Repr

/-- The empty service state: no cached clients, no constructions yet. -/
def SvcState.empty : SvcState := ⟨[], 0⟩

/-- Embedding of OssService.getClient (oss.service.ts lines 67-95):
return the cached client when the name is in the cache; otherwise look up
the configuration (none means ConfigNotFound, the caller sees null), run the
constructor (none models the constructor throwing, which the source catches
and turns into null without touching the cache), and on success insert the
new client into the cache before returning it. -/
def getClient (mk : OssConfig → Nat → Option Client) (configs : String → Option OssConfig)
    (configName : String) (svc : SvcState) : Option Client × SvcState :=
  match svc.clients.find? (fun p => p.1 == configName) with
  | some p => (some p.2, svc)
  | none =>
    match configs configName with
    | none => (none, svc)
    | some cfg =>
      match mk cfg svc.counter with
      | none => (none, svc)
      | some c => (some c, ⟨(configName, c) :: svc.clients, svc.counter + 1⟩)

/-- Claim C6: once a call to getClient with a given name has returned a
client, a second call with the same name returns the identical client
instance and leaves the state untouched (in particular the construction
counter does not move, so no new client is constructed).  Moreover, when
the name was not cached before the first call, that first successful call
performed exactly one construction and inserted its result into the cache
keyed by the name. -/
theorem getClient_caches_and_reuses
    (mk : OssConfig → Nat → Option Client) (configs : String → Option OssConfig)
    (configName : String) (svc : SvcState) (c : Client) (svc' : SvcState)
    (h : getClient mk configs configName svc = (some c, svc')) :
    getClient mk configs configName svc' = (some c, svc') ∧
      (svc.clients.find? (fun p => p.1 == configName) = none →
        svc'.clients = (configName, c) :: svc.clients ∧ svc'.counter = svc.counter + 1) := by
  cases hf : svc.clients.find? (fun p => p.1 == configName) with
  | some p =>
    simp only [getClient, hf] at h
    injection h with h1 h2
    injection h1 with h1
    subst h1
    subst h2
    refine ⟨?_, fun hnone => absurd hnone (by simp [hf])⟩
    simp only [getClient, hf]
  | none =>
    cases hc : configs configName with
    | none =>
      simp only [getClient, hf, hc] at h
      exact absurd h (by simp)
    | some cfg =>
      cases hm : mk cfg svc.counter with
      | none =>
        simp only [getClient, hf, hc, hm] at h
        exact absurd h (by simp)
      | some cl =>
        simp only [getClient, hf, hc, hm] at h
        injection h with h1 h2
        injection h1 with h1
        subst h1
        subst h2
        refine ⟨?_, fun _ => ⟨rfl, rfl⟩⟩
        simp only [getClient]
        rw [List.find?_cons_of_pos]
        simp

/-- A sample configuration used by concrete witnesses. -/
def cfg0 : OssConfig :=
  ⟨"oss-cn-shenzhen", "AKID", "AKSECRET", "demo-bucket", "oss-cn-shenzhen.aliyuncs.com"⟩

/-- A sample configuration map holding only the name default. -/
def cfgs1 : String → Option OssConfig := fun n => if n = "default" then some cfg0 else none

/-- A constructor that always succeeds, tagging the client with the
construction counter. -/
def mkAlways : OssConfig → Nat → Option Client := fun cfg n => some ⟨cfg, n⟩

/-- The client produced by the first construction from cfg0. -/
def client0 : Client := ⟨cfg0, 0⟩

/-- The service state after caching client0 under the name default. -/
def svc1 : SvcState := ⟨[("default", client0)], 1⟩

/-- Witness for claim C6 at a concrete configuration map and empty cache. -/
theorem getClient_caches_and_reuses_witness :
    getClient mkAlways cfgs1 "default" SvcState.empty = (some client0, svc1) ∧
      (getClient mkAlways cfgs1 "default" svc1 = (some client0, svc1) ∧
        (SvcState.empty.clients.find? (fun p => p.1 == "default") = none →
          svc1.clients = ("default", client0) :: SvcState.empty.clients ∧
            svc1.counter = SvcState.empty.counter + 1)) :=
  ⟨by decide,
    getClient_caches_and_reuses mkAlways cfgs1 "default" SvcState.empty client0 svc1 (by decide)⟩

/-- An object stored in the bucket: its content bytes plus the metadata the
listing surfaces (size and last-modified timestamp, the latter as a Nat). -/
structure Obj where
  content : String
  size : Nat
  lastModified : Nat
deriving DecidableEq, Repr

/-- The remote bucket: an association list from keys to objects, in the
order the store would natively return them. -/
structure OssStore where
  objs : List (String × Obj)
deriving DecidableEq, Repr

/-- Every store call the service issues, for auditing which remote
operations a code path performs. -/
inductive OssOp where
  | head (key : String)
  | copy (dst src : String)
  | del (key : String)
  | listing (pre : String)
deriving DecidableEq, Repr

/-- Look up the object stored under a key (the head request succeeds
exactly when this is some). -/
def lookupObj (store : OssStore) (k : String) : Option Obj :=
  (store.objs.find? (fun p => p.1 == k)).map (fun p => p.2)

/-- Store the given object under dst, replacing any previous binding. -/
def setObj (store : OssStore) (dst : String) (o : Obj) : OssStore :=
  ⟨(dst, o) :: store.objs.filter (fun p => !(p.1 == dst))⟩

/-- Remote CopyObject: bind dst to the object currently stored under src;
none models the store rejecting a copy whose source is absent. -/
def copyObj (store : OssStore) (dst src : String) : Option OssStore :=
  match lookupObj store src with
  | none => none
  | some o => some (setObj store dst o)

/-- Remote DeleteObject: drop the binding of the key (deleting an absent
key succeeds and changes nothing). -/
def deleteObj (store : OssStore) (k : String) : OssStore :=
  ⟨store.objs.filter (fun p => !(p.1 == k))⟩

/-- Normalization applied by renameFile to both keys: drop every leading
slash, as the regex replace of a leading run of slashes does. -/
def stripLeadingSlashes (s : String) : String :=
  ⟨s.data.dropWhile (fun c => c == '/')⟩

/-- Result record of a single rename: success flag and optional error. -/
structure RenameOutcome where
  success : Bool
  error : Option String
deriving DecidableEq, Repr

/-- Everything a renameFile call produces: the outcome returned to the
caller, the service state and bucket afterwards, and the trace of remote
calls issued. -/
structure RenameStep where
  outcome : RenameOutcome
  svc : SvcState
  store : OssStore
  trace : List OssOp
deriving Repr

/-- Embedding of OssService.renameFile (oss.service.ts lines 162-201):
resolve a client (null means config-not-found), normalize both keys by
stripping leading slashes, probe the source with head (absent means
source-not-found, no further calls), probe the destination with head
(present with a different normalized key means destination-exists, no
further calls), then copy the source onto the destination and delete the
source.  A copy that the store rejects surfaces through the outer catch
as a generic failure. -/
def renameFile (mk : OssConfig → Nat → Option Client) (configs : String → Option OssConfig)
    (svc : SvcState) (oldKey newKey configName : String) (store : OssStore) : RenameStep :=
  match getClient mk configs configName svc with
  | (none, svc') =>
    ⟨⟨false, some ("OSS config not found for: " ++ configName)⟩, svc', store, []⟩
  | (some _, svc') =>
    let nOld := stripLeadingSlashes oldKey
    let nNew := stripLeadingSlashes newKey
    if lookupObj store nOld = none then
      ⟨⟨false, some ("源文件不存在: " ++ nOld)⟩, svc', store, [OssOp.head nOld]⟩
    else if (lookupObj store nNew).isSome ∧ nOld ≠ nNew then
      ⟨⟨false, some ("目标文件已存在: " ++ nNew)⟩, svc', store,
        [OssOp.head nOld, OssOp.head nNew]⟩
    else
      match copyObj store nNew nOld with
      | none =>
        ⟨⟨false, some "重命名失败"⟩, svc', store,
          [OssOp.head nOld, OssOp.head nNew, OssOp.copy nNew nOld]⟩
      | some st1 =>
        ⟨⟨true, none⟩, svc', deleteObj st1 nOld,
          [OssOp.head nOld, OssOp.head nNew, OssOp.copy nNew nOld, OssOp.del nOld]⟩

/-- A store holding a single object under the key a.png. -/
def storeSelf : OssStore := ⟨[("a.png", ⟨"PNGDATA", 7, 11⟩)]⟩

/-- Claim C1 (code bug evidence): renaming a.png onto itself over a store
that holds an object at a.png returns success with no destination-exists
error, but the copy onto the same key followed by the delete of that key
REMOVES the object: afterwards the key no longer holds anything, contrary
to the claim that the content is left unchanged. -/
theorem renameFile_self_rename_deletes_object :
    (renameFile mkAlways cfgs1 SvcState.empty "a.png" "a.png" "default" storeSelf).outcome
        = ⟨true, none⟩ ∧
      lookupObj (renameFile mkAlways cfgs1 SvcState.empty "a.png" "a.png" "default"
        storeSelf).store "a.png" = none ∧
      lookupObj storeSelf "a.png" = some ⟨"PNGDATA", 7, 11⟩ := by
  decide

/-- Claim C2: when a client resolves, the source object exists, the
destination object exists and the normalized keys differ, renameFile fails
with the destination-exists error, issues exactly the two head probes (in
particular no copy and no delete), and leaves the bucket untouched. -/
theorem renameFile_dest_exists
    (mk : OssConfig → Nat → Option Client) (configs : String → Option OssConfig)
    (svc : SvcState) (oldKey newKey configName : String) (store : OssStore)
    (c : Client) (svc' : SvcState) (o o' : Obj)
    (hget : getClient mk configs configName svc = (some c, svc'))
    (hOld : lookupObj store (stripLeadingSlashes oldKey) = some o)
    (hNew : lookupObj store (stripLeadingSlashes newKey) = some o')
    (hNe : stripLeadingSlashes oldKey ≠ stripLeadingSlashes newKey) :
    (renameFile mk configs svc oldKey newKey configName store).outcome.success = false ∧
      (renameFile mk configs svc oldKey newKey configName store).outcome.error
        = some ("目标文件已存在: " ++ stripLeadingSlashes newKey) ∧
      (renameFile mk configs svc oldKey newKey configName store).store = store ∧
      (renameFile mk configs svc oldKey newKey configName store).trace
        = [OssOp.head (stripLeadingSlashes oldKey),
           OssOp.head (stripLeadingSlashes newKey)] := by
  simp only [renameFile, hget]
  rw [if_neg (by simp [hOld]), if_pos ⟨by simp [hNew], hNe⟩]
  exact ⟨rfl, rfl, rfl, rfl⟩

/-- A store holding distinct objects under a.txt and b.txt. -/
def storeAB : OssStore := ⟨[("a.txt", ⟨"AAA", 3, 1⟩), ("b.txt", ⟨"BBB", 3, 2⟩)]⟩

/-- Witness for claim C2: renaming a.txt to the occupied b.txt. -/
theorem renameFile_dest_exists_witness :
    getClient mkAlways cfgs1 "default" SvcState.empty = (some client0, svc1) ∧
      lookupObj storeAB (stripLeadingSlashes "a.txt") = some ⟨"AAA", 3, 1⟩ ∧
      lookupObj storeAB (stripLeadingSlashes "b.txt") = some ⟨"BBB", 3, 2⟩ ∧
      ((renameFile mkAlways cfgs1 SvcState.empty "a.txt" "b.txt" "default" storeAB).outcome.success
          = false ∧
        (renameFile mkAlways cfgs1 SvcState.empty "a.txt" "b.txt" "default" storeAB).outcome.error
          = some ("目标文件已存在: " ++ stripLeadingSlashes "b.txt") ∧
        (renameFile mkAlways cfgs1 SvcState.empty "a.txt" "b.txt" "default" storeAB).store
          = storeAB ∧
        (renameFile mkAlways cfgs1 SvcState.empty "a.txt" "b.txt" "default" storeAB).trace
          = [OssOp.head (stripLeadingSlashes "a.txt"), OssOp.head (stripLeadingSlashes "b.txt")]) :=
  ⟨by decide, by decide, by decide,
    renameFile_dest_exists mkAlways cfgs1 SvcState.empty "a.txt" "b.txt" "default" storeAB
      client0 svc1 ⟨"AAA", 3, 1⟩ ⟨"BBB", 3, 2⟩ (by decide) (by decide) (by decide) (by decide)⟩

/-- Claim C3: when a client resolves and the head probe of the normalized
source key finds nothing, renameFile fails with the source-not-found error,
issues only that single head probe (no copy, no delete), and leaves the
bucket untouched. -/
theorem renameFile_source_missing
    (mk : OssConfig → Nat → Option Client) (configs : String → Option OssConfig)
    (svc : SvcState) (oldKey newKey configName : String) (store : OssStore)
    (c : Client) (svc' : SvcState)
    (hget : getClient mk configs configName svc = (some c, svc'))
    (hOld : lookupObj store (stripLeadingSlashes oldKey) = none) :
    (renameFile mk configs svc oldKey newKey configName store).outcome.success = false ∧
      (renameFile mk configs svc oldKey newKey configName store).outcome.error
        = some ("源文件不存在: " ++ stripLeadingSlashes oldKey) ∧
      (renameFile mk configs svc oldKey newKey configName store).store = store ∧
      (renameFile mk configs svc oldKey newKey configName store).trace
        = [OssOp.head (stripLeadingSlashes oldKey)] := by
  simp only [renameFile, hget]
  rw [if_pos hOld]
  exact ⟨rfl, rfl, rfl, rfl⟩

/-- Witness for claim C3: renaming the absent key missing.txt. -/
theorem renameFile_source_missing_witness :
    getClient mkAlways cfgs1 "default" SvcState.empty = (some client0, svc1) ∧
      lookupObj storeAB (stripLeadingSlashes "missing.txt") = none ∧
      ((renameFile mkAlways cfgs1 SvcState.empty "missing.txt" "c.txt" "default"
            storeAB).outcome.success = false ∧
        (renameFile mkAlways cfgs1 SvcState.empty "missing.txt" "c.txt" "default"
            storeAB).outcome.error = some ("源文件不存在: " ++ stripLeadingSlashes "missing.txt") ∧
        (renameFile mkAlways cfgs1 SvcState.empty "missing.txt" "c.txt" "default"
            storeAB).store = storeAB ∧
        (renameFile mkAlways cfgs1 SvcState.empty "missing.txt" "c.txt" "default"
            storeAB).trace = [OssOp.head (stripLeadingSlashes "missing.txt")]) :=
  ⟨by decide, by decide,
    renameFile_source_missing mkAlways cfgs1 SvcState.empty "missing.txt" "c.txt" "default"
      storeAB client0 svc1 (by decide) (by decide)⟩

/-- One entry of the batch input: the old and new relative file names. -/
structure RenameRule where
  oldName : String
  newName : String
deriving DecidableEq, Repr

/-- One entry of the batch output: the rule it answers plus its outcome. -/
structure RenameResult where
  oldName : String
  newName : String
  success : Bool
  error : Option String
deriving DecidableEq, Repr

/-- Everything a batch rename produces: the per-rule results and the final
service state, bucket and remote trace. -/
structure BatchStep where
  results : List RenameResult
  svc : SvcState
  store : OssStore
  trace : List OssOp
deriving Repr

/-- Normalization applied to a directory: strip leading and trailing runs
of slashes, and when the remainder is nonempty append a single trailing
slash to form the key prefix. -/
def dirPre (directory : String) : String :=
  let nd : List Char := (((directory.data.dropWhile (fun c => c == '/')).reverse).dropWhile
    (fun c => c == '/')).reverse
  if nd = [] then "" else ⟨nd ++ ['/']⟩

/-- Sequentially run renameFile for each rule, threading the service state
and the bucket, collecting one result per rule and concatenating traces. -/
def runRenameRules (mk : OssConfig → Nat → Option Client) (configs : String → Option OssConfig)
    (pre configName : String) :
    List RenameRule → SvcState → OssStore → BatchStep
  | [], svc, store => ⟨[], svc, store, []⟩
  | r :: rs, svc, store =>
    let step := renameFile mk configs svc (pre ++ r.oldName) (pre ++ r.newName) configName store
    let rest := runRenameRules mk configs pre configName rs step.svc step.store
    ⟨⟨r.oldName, r.newName, step.outcome.success, step.outcome.error⟩ :: rest.results,
      rest.svc, rest.store, step.trace ++ rest.trace⟩

/-- Embedding of OssService.batchRenameFiles (oss.service.ts lines
280-305): normalize the directory once, then execute renameFile for every
rule in input order, accumulating one result per rule. -/
def batchRenameFiles (mk : OssConfig → Nat → Option Client)
    (configs : String → Option OssConfig) (svc : SvcState)
    (rules : List RenameRule) (directory configName : String) (store : OssStore) : BatchStep :=
  runRenameRules mk configs (dirPre directory) configName rules svc store

/-- Helper for claim C4: runRenameRules answers every rule in order, with
each result carrying its rule's names, whatever the intermediate outcomes. -/
theorem runRenameRules_shape (mk : OssConfig → Nat → Option Client)
    (configs : String → Option OssConfig) (pre configName : String) :
    ∀ (rules : List RenameRule) (svc : SvcState) (store : OssStore),
      (runRenameRules mk configs pre configName rules svc store).results.map
          (fun r => (r.oldName, r.newName))
        = rules.map (fun r => (r.oldName, r.newName))
  | [], _, _ => rfl
  | r :: rs, svc, store => by
    simp only [runRenameRules, List.map]
    exact congrArg _ (runRenameRules_shape mk configs pre configName rs _ _)

/-- Claim C4: batchRenameFiles returns exactly one result per rule, in the
order of the input array, each carrying that rule's oldName and newName;
every rule is processed whatever happened to the earlier ones (the result
list never stops short). -/
theorem batchRenameFiles_one_result_per_rule (mk : OssConfig → Nat → Option Client)
    (configs : String → Option OssConfig) (svc : SvcState)
    (rules : List RenameRule) (directory configName : String) (store : OssStore) :
    (batchRenameFiles mk configs svc rules directory configName store).results.map
        (fun r => (r.oldName, r.newName))
      = rules.map (fun r => (r.oldName, r.newName)) ∧
      (batchRenameFiles mk configs svc rules directory configName store).results.length
        = rules.length := by
  have h := runRenameRules_shape mk configs (dirPre directory) configName rules svc store
  refine ⟨h, ?_⟩
  have := congrArg List.length h
  simpa using this

/-- Embedding of the batch_rename_files tool handler (server.ts lines
164-180): in dry-run mode synthesize one success result per rule without
touching the service or the store; otherwise delegate to
OssService.batchRenameFiles. -/
def batchRenameTool (mk : OssConfig → Nat → Option Client)
    (configs : String → Option OssConfig) (svc : SvcState)
    (directory : String) (renameRules : List RenameRule) (configName : String)
    (dryRun : Bool) (store : OssStore) : BatchStep :=
  if dryRun then
    ⟨renameRules.map (fun r => ⟨r.oldName, r.newName, true, none⟩), svc, store, []⟩
  else
    batchRenameFiles mk configs svc renameRules directory configName store

/-- Claim C5: with dryRun set, the batch rename tool issues no remote call
at all, leaves the bucket as it was, and answers every rule with success
and no error; the whole output is a function of the rules alone, so it is
identical over any two remote store states. -/
theorem batchRenameTool_dryRun_pure (mk : OssConfig → Nat → Option Client)
    (configs : String → Option OssConfig) (svc : SvcState)
    (directory : String) (renameRules : List RenameRule) (configName : String)
    (store store2 : OssStore) :
    (batchRenameTool mk configs svc directory renameRules configName true store).trace = [] ∧
      (batchRenameTool mk configs svc directory renameRules configName true store).store
        = store ∧
      (batchRenameTool mk configs svc directory renameRules configName true store).results
        = renameRules.map (fun r => ⟨r.oldName, r.newName, true, none⟩) ∧
      (batchRenameTool mk configs svc directory renameRules configName true store).results
        = (batchRenameTool mk configs svc directory renameRules configName true store2).results :=
  ⟨rfl, rfl, rfl, rfl⟩

/-- One pass of the JavaScript global single-character replace used by
the pattern translation: substitute the replacement chunk for every
occurrence of the target character, scanning the string once. -/
def replaceAll (t : Char) (r : List Char) : List Char → List Char
  | [] => []
  | c :: l => (if c = t then r else [c]) ++ replaceAll t r l

/-- Embedding of the regex SOURCE STRING built by oss.service.ts lines
246-252: first escape every dot, then turn every asterisk into dot-star,
then every question mark into dot.  Later passes never rescan their own
output (global replace is single-pass) and never hit characters an
earlier pass produced, exactly as in the source.  Every other character
— including regex metacharacters such as plus, parentheses, brackets,
braces, bar, caret, dollar and backslash — is left in place and stays
LIVE regex syntax in the string handed to new RegExp. -/
def regexTranslateChars (l : List Char) : List Char :=
  replaceAll '?' ['.'] (replaceAll '*' ['.', '*'] (replaceAll '.' ['\\', '.'] l))

/-- The translated regex source of a whole pattern string. -/
def regexTranslate (p : String) : List Char :=
  regexTranslateChars p.data

/-- An atom of the regex fragment the model interprets: a literal
character (possibly produced by an escape) or the dot matching any one
character. -/
inductive RAtom where
  | lit (c : Char)
  | any
deriving DecidableEq, Repr

/-- A quantified atom: exactly once, star (zero or more) or plus (one or
more). -/
inductive RPiece where
  | once (a : RAtom)
  | star (a : RAtom)
  | plus (a : RAtom)
deriving DecidableEq, Repr

/-- The characters that survive the translation untouched yet are not
regex literals: in the string handed to new RegExp they act as live
syntax (or raise a SyntaxError), so the glob reading of the pattern is
wrong for them. -/
def isRegexMeta (c : Char) : Bool :=
  c == '+' || c == '(' || c == ')' || c == '[' || c == ']' || c == '{' || c == '}' ||
    c == '|' || c == '^' || c == '$' || c == '\\'

/-- Parser for the regex fragment the model interprets, reading the
translated source: non-alphanumeric escapes are literals (covering the
escaped dot and escaped backslash the translation can produce), a dot is
the any-character atom, and an atom may carry a postfix star or plus
quantifier.  Unsupported constructs — groups, classes, alternation,
anchors, braces, class escapes, and quantifiers with nothing to repeat —
make the parse fail; on such regexes the real new RegExp either applies
syntax this model does not cover or throws, so every theorem below stays
inside the parsed fragment. -/
def parseRegex : List Char → Option (List RPiece)
  | [] => some []
  | c :: rest =>
    if c = '\\' then
      match rest with
      | [] => none
      | c2 :: rest2 =>
        if c2.isAlphanum then none
        else
          match rest2 with
          | q :: rest3 =>
            if q = '*' then (parseRegex rest3).map (fun l => RPiece.star (RAtom.lit c2) :: l)
            else if q = '+' then
              (parseRegex rest3).map (fun l => RPiece.plus (RAtom.lit c2) :: l)
            else (parseRegex (q :: rest3)).map (fun l => RPiece.once (RAtom.lit c2) :: l)
          | [] => (parseRegex []).map (fun l => RPiece.once (RAtom.lit c2) :: l)
    else if c = '.' then
      match rest with
      | q :: rest2 =>
        if q = '*' then (parseRegex rest2).map (fun l => RPiece.star RAtom.any :: l)
        else if q = '+' then (parseRegex rest2).map (fun l => RPiece.plus RAtom.any :: l)
        else (parseRegex (q :: rest2)).map (fun l => RPiece.once RAtom.any :: l)
      | [] => (parseRegex []).map (fun l => RPiece.once RAtom.any :: l)
    else if isRegexMeta c then none
    else if c = '*' then none
    else if c = '?' then none
    else
      match rest with
      | q :: rest2 =>
        if q = '*' then (parseRegex rest2).map (fun l => RPiece.star (RAtom.lit c) :: l)
        else if q = '+' then (parseRegex rest2).map (fun l => RPiece.plus (RAtom.lit c) :: l)
        else (parseRegex (q :: rest2)).map (fun l => RPiece.once (RAtom.lit c) :: l)
      | [] => (parseRegex []).map (fun l => RPiece.once (RAtom.lit c) :: l)

/-- Case-insensitive atom match, as the i flag makes every comparison. -/
def matchAtom : RAtom → Char → Bool
  | RAtom.lit c, d => c.toLower == d.toLower
  | RAtom.any, _ => true

/-- Fuel-driven anchored matcher for the parsed pieces: once consumes one
matching character, star consumes any run of matching characters, plus
consumes one matching character and then behaves like star.  Each step
spends one fuel unit and shrinks the combined size of the two arguments,
so any fuel above that combined size computes the true matching
relation. -/
def matchPiecesF : Nat → List RPiece → List Char → Bool
  | 0, _, _ => false
  | _ + 1, [], [] => true
  | _ + 1, [], _ :: _ => false
  | _ + 1, RPiece.once _ :: _, [] => false
  | f + 1, RPiece.once a :: ps, d :: t => matchAtom a d && matchPiecesF f ps t
  | f + 1, RPiece.star _ :: ps, [] => matchPiecesF f ps []
  | f + 1, RPiece.star a :: ps, d :: t =>
    matchPiecesF f ps (d :: t) || (matchAtom a d && matchPiecesF f (RPiece.star a :: ps) t)
  | _ + 1, RPiece.plus _ :: _, [] => false
  | f + 1, RPiece.plus a :: ps, d :: t =>
    matchAtom a d && matchPiecesF f (RPiece.star a :: ps) t

/-- Anchored case-insensitive match of a parsed regex against the whole
name, with fuel ample for the two sizes. -/
def rmatch (re : List RPiece) (s : List Char) : Bool :=
  matchPiecesF (re.length + s.length + 1) re s

/-- The pattern guard of listFiles (oss.service.ts lines 245-253): with
no pattern every name passes; with a pattern, translate it to the regex
source, parse that source, and test the name against the regex, anchored
and case-insensitive.  A source outside the parsed fragment yields false
here, a boundary of the model that no theorem below depends on (the real
code would apply unmodelled live syntax or propagate a SyntaxError). -/
def patternFilter (pattern : Option String) (name : String) : Bool :=
  match pattern with
  | none => true
  | some p =>
    match parseRegex (regexTranslate p) with
    | none => false
    | some re => rmatch re name.data

/-- Lexicographic less-or-equal on lists of naturals, used as the base of
both string orders below. -/
def lexLe : List Nat → List Nat → Bool
  | [], _ => true
  | _ :: _, [] => false
  | a :: as, b :: bs => if a < b then true else if a = b then lexLe as bs else false

/-- Helper: lexLe is total. -/
theorem lexLe_total : ∀ (x y : List Nat), lexLe x y = true ∨ lexLe y x = true
  | [], _ => Or.inl rfl
  | _ :: _, [] => Or.inr rfl
  | a :: as, b :: bs => by
    rw [lexLe, lexLe]
    rcases Nat.lt_trichotomy a b with h | h | h
    · left; rw [if_pos h]
    · subst h
      rw [if_neg (Nat.lt_irrefl a), if_pos rfl, if_neg (Nat.lt_irrefl a), if_pos rfl]
      exact lexLe_total as bs
    · right; rw [if_pos h]

/-- Helper: lexLe is antisymmetric. -/
theorem lexLe_antisymm : ∀ (x y : List Nat), lexLe x y = true → lexLe y x = true → x = y
  | [], [], _, _ => rfl
  | [], _ :: _, _, h => by rw [lexLe] at h; exact absurd h (by simp)
  | _ :: _, [], h, _ => by rw [lexLe] at h; exact absurd h (by simp)
  | a :: as, b :: bs, h1, h2 => by
    rw [lexLe] at h1 h2
    rcases Nat.lt_trichotomy a b with h | h | h
    · rw [if_neg (Nat.lt_asymm h), if_neg (Nat.ne_of_gt h)] at h2
      exact absurd h2 (by simp)
    · subst h
      rw [if_neg (Nat.lt_irrefl a), if_pos rfl] at h1 h2
      rw [lexLe_antisymm as bs h1 h2]
    · rw [if_neg (Nat.lt_asymm h), if_neg (Nat.ne_of_gt h)] at h1
      exact absurd h1 (by simp)

/-- Helper: lexLe is transitive. -/
theorem lexLe_trans : ∀ (x y z : List Nat),
    lexLe x y = true → lexLe y z = true → lexLe x z = true
  | [], _, _, _, _ => rfl
  | _ :: _, [], _, h1, _ => by rw [lexLe] at h1; exact absurd h1 (by simp)
  | _ :: _, _ :: _, [], _, h2 => by rw [lexLe] at h2; exact absurd h2 (by simp)
  | a :: as, b :: bs, c :: cs, h1, h2 => by
    rw [lexLe] at h1 h2 ⊢
    by_cases hab : a < b
    · by_cases hbc : b < c
      · rw [if_pos (Nat.lt_trans hab hbc)]
      · rw [if_neg hbc] at h2
        by_cases hbc' : b = c
        · subst hbc'; rw [if_pos hab]
        · rw [if_neg hbc'] at h2; exact absurd h2 (by simp)
    · rw [if_neg hab] at h1
      by_cases hab' : a = b
      · subst hab'
        rw [if_pos rfl] at h1
        by_cases hac : a < c
        · rw [if_pos hac]
        · rw [if_neg hac] at h2 ⊢
          by_cases hac' : a = c
          · rw [if_pos hac'] at h2 ⊢
            exact lexLe_trans as bs cs h1 h2
          · rw [if_neg hac'] at h2; exact absurd h2 (by simp)
      · rw [if_neg hab'] at h1; exact absurd h1 (by simp)

/-- Primary collation key: the name lowercased, character by character. -/
def lowerKey (s : String) : List Nat :=
  s.data.map (fun c => c.toLower.toNat)

/-- Tie-breaking collation key: the name with the case of every letter
swapped, so that at equal letters lowercase sorts before uppercase. -/
def swapCaseKey (s : String) : List Nat :=
  s.data.map (fun c => (if c.isLower then c.toUpper else if c.isUpper then c.toLower else c).toNat)

/-- Modelled from the runtime: String.prototype.localeCompare under the
default ICU root collation that Node.js ships, restricted to the ASCII
range — letters compare case-insensitively first, and at equal letters
lowercase sorts before uppercase (so a before B before b).  This is the
comparator the listing sort of oss.service.ts line 265 delegates to; it
is NOT the code-point order. -/
def lcLe (a b : String) : Bool :=
  if lowerKey a = lowerKey b then lexLe (swapCaseKey a) (swapCaseKey b)
  else lexLe (lowerKey a) (lowerKey b)

/-- Plain code-point (byte) lexicographic order on names, the order the
claim about sorted listings asserts. -/
def cpLe (a b : String) : Bool :=
  lexLe (a.data.map Char.toNat) (b.data.map Char.toNat)

/-- Helper: the modelled locale comparator is total. -/
theorem lcLe_total (a b : String) : lcLe a b = true ∨ lcLe b a = true := by
  rw [lcLe, lcLe]
  by_cases h : lowerKey a = lowerKey b
  · rw [if_pos h, if_pos h.symm]
    exact lexLe_total ..
  · rw [if_neg h, if_neg (fun hh => h hh.symm)]
    exact lexLe_total _ _

/-- Helper: the modelled locale comparator is transitive. -/
theorem lcLe_trans (a b c : String) (h1 : lcLe a b = true) (h2 : lcLe b c = true) :
    lcLe a c = true := by
  rw [lcLe] at h1 h2 ⊢
  by_cases hab : lowerKey a = lowerKey b
  · by_cases hbc : lowerKey b = lowerKey c
    · rw [if_pos hab] at h1
      rw [if_pos hbc] at h2
      rw [if_pos (hab.trans hbc)]
      exact lexLe_trans _ _ _ h1 h2
    · rw [if_neg hbc] at h2
      rw [if_neg (fun h => hbc (hab.symm.trans h)), hab]
      exact h2
  · by_cases hbc : lowerKey b = lowerKey c
    · rw [if_neg hab] at h1
      rw [if_neg (fun h => hab (h.trans hbc.symm)), ← hbc]
      exact h1
    · rw [if_neg hab] at h1
      rw [if_neg hbc] at h2
      have hac : lowerKey a ≠ lowerKey c := by
        intro h
        exact hab (lexLe_antisymm _ _ h1 (h ▸ h2))
      rw [if_neg hac]
      exact lexLe_trans _ _ _ h1 h2

/-- One line of the listing result: stripped name, size, last modified. -/
structure FileEntry where
  name : String
  size : Nat
  lastModified : Nat
deriving DecidableEq, Repr

/-- The comparison relation the listing sort uses on entries: modelled
localeCompare on the names. -/
def fileLe (a b : FileEntry) : Prop := lcLe a.name b.name = true

instance : DecidableRel fileLe := fun a b => instDecidableEqBool (lcLe a.name b.name) true

instance : IsTotal FileEntry fileLe := ⟨fun a b => lcLe_total a.name b.name⟩

instance : IsTrans FileEntry fileLe := ⟨fun a b c => lcLe_trans a.name b.name c.name⟩

/-- The keys the modelled ListObjects call answers with delimiter slash:
keys extending the query prefix whose remainder holds no further slash
(deeper keys are rolled up into common prefixes, which the source
ignores), in the store's native order. -/
def candidatesOf (store : OssStore) (pre : String) : List (String × Obj) :=
  store.objs.filter (fun p =>
    pre.data.isPrefixOf p.1.data && !((p.1.data.drop pre.data.length).any (fun c => c == '/')))

/-- Modelled from the spec and the OSS ListObjects API: the store answers
at most maxKeys objects and the source passes max-keys 1000 and never
paginates, so everything beyond the first 1000 candidates is dropped. -/
def ossList (store : OssStore) (pre : String) (maxKeys : Nat) : List (String × Obj) :=
  (candidatesOf store pre).take maxKeys

/-- Does the key end with a slash (the directory marker test)? -/
def endsWithSlash (l : List Char) : Bool :=
  match l.reverse with
  | [] => false
  | c :: _ => c == '/'

/-- JavaScript String.replace with a plain-string pattern and empty
replacement: delete the first occurrence of the pattern, scanning left to
right, and return the input unchanged when the pattern never occurs. -/
def removeFirstOcc (pat : List Char) : List Char → List Char
  | [] => []
  | c :: t => if pat.isPrefixOf (c :: t) then (c :: t).drop pat.length else c :: removeFirstOcc pat t

/-- The per-object step of the listing loop (oss.service.ts lines
236-261): skip keys ending in a slash, strip the prefix via replace, skip
the empty name, apply the optional pattern guard, and build the entry. -/
def entryFor (pre : String) (pattern : Option String) (p : String × Obj) : Option FileEntry :=
  if endsWithSlash p.1.data then none
  else if removeFirstOcc pre.data p.1.data = [] then none
  else if patternFilter pattern ⟨removeFirstOcc pre.data p.1.data⟩ then
    some ⟨⟨removeFirstOcc pre.data p.1.data⟩, p.2.size, p.2.lastModified⟩
  else none

/-- What listFiles returns to its caller. -/
structure ListOutcome where
  success : Bool
  files : Option (List FileEntry)
  error : Option String
deriving DecidableEq, Repr

/-- A listFiles call: its outcome, the service state after it, and the
remote calls issued. -/
structure ListStep where
  outcome : ListOutcome
  svc : SvcState
  trace : List OssOp
deriving Repr

/-- Embedding of OssService.listFiles (oss.service.ts lines 210-271):
resolve a client, normalize the directory into a prefix, issue one list
call with delimiter slash and max-keys 1000, convert each returned object
through the loop above, and sort the entries by the locale comparator on
names before returning them. -/
def listFiles (mk : OssConfig → Nat → Option Client) (configs : String → Option OssConfig)
    (svc : SvcState) (directory configName : String) (pattern : Option String)
    (store : OssStore) : ListStep :=
  match getClient mk configs configName svc with
  | (none, svc') =>
    ⟨⟨false, none, some ("OSS config not found for: " ++ configName)⟩, svc', []⟩
  | (some _, svc') =>
    let pre := dirPre directory
    let entries := (ossList store pre 1000).filterMap (entryFor pre pattern)
    ⟨⟨true, some (List.insertionSort fileLe entries), none⟩, svc', [OssOp.listing pre]⟩

/-- Claim C8 (amended): whatever the store state and whatever order the
store returns objects in, the files array answered by listFiles is sorted
with respect to the locale comparator the source hands to sort — not, in
general, with respect to code-point order. -/
theorem listFiles_sorted_by_locale
    (mk : OssConfig → Nat → Option Client) (configs : String → Option OssConfig)
    (svc : SvcState) (directory configName : String) (pattern : Option String)
    (store : OssStore) (fs : List FileEntry)
    (h : (listFiles mk configs svc directory configName pattern store).outcome.files
      = some fs) :
    fs.Pairwise fileLe := by
  rcases hg : getClient mk configs configName svc with ⟨copt, svc'⟩
  cases copt with
  | none =>
    simp only [listFiles, hg] at h
    exact Option.noConfusion h
  | some c =>
    simp only [listFiles, hg] at h
    injection h with h
    subst h
    exact List.sorted_insertionSort fileLe _

/-- A store whose native order is B.png before a.png. -/
def storeBA : OssStore := ⟨[("B.png", ⟨"BB", 2, 6⟩), ("a.png", ⟨"AA", 1, 5⟩)]⟩

/-- The listing of storeBA as the modelled locale sort produces it. -/
def filesBA : List FileEntry := [⟨"a.png", 1, 5⟩, ⟨"B.png", 2, 6⟩]

/-- Claim C8 counterexample: on storeBA the listing answers a.png before
B.png (the locale comparator puts lowercase a before uppercase B), so the
files array is NOT sorted in lexicographic code-point order, where B at
code point 66 precedes a at code point 97. -/
theorem listFiles_not_codepoint_sorted :
    (listFiles mkAlways cfgs1 SvcState.empty "" "default" none storeBA).outcome.files
        = some filesBA ∧
      ¬ filesBA.Pairwise (fun a b => cpLe a.name b.name = true) := by
  constructor
  · decide
  · intro h
    have := List.rel_of_pairwise_cons h (List.mem_singleton.mpr rfl)
    exact absurd this (by decide)

/-- Witness for claim C8 at a concrete store. -/
theorem listFiles_sorted_by_locale_witness :
    (listFiles mkAlways cfgs1 SvcState.empty "" "default" none storeBA).outcome.files
        = some filesBA ∧
      filesBA.Pairwise fileLe :=
  ⟨by decide,
    listFiles_sorted_by_locale mkAlways cfgs1 SvcState.empty "" "default" none storeBA
      filesBA (by decide)⟩

/-- Helper: deleting the first occurrence of a pattern that starts the
list just drops the pattern's length. -/
theorem removeFirstOcc_of_isPrefixOf (pat l : List Char) (h : pat.isPrefixOf l = true) :
    removeFirstOcc pat l = l.drop pat.length := by
  cases l with
  | nil =>
    cases pat with
    | nil => rfl
    | cons a t => simp [List.isPrefixOf] at h
  | cons c t => rw [removeFirstOcc, if_pos h]

/-- Claim C9 (amended): whenever at most 1000 keys lie directly under the
normalized prefix, the listing is complete — every object whose key
extends the prefix by a nonempty remainder free of further slashes and
whose stripped name passes the pattern guard contributes an entry carrying
its name, size and timestamp.  (Beyond 1000 candidates the single
max-keys-1000 call silently drops the rest; see the counterexample.) -/
theorem listFiles_complete_le1000
    (mk : OssConfig → Nat → Option Client) (configs : String → Option OssConfig)
    (svc : SvcState) (directory configName : String) (pattern : Option String)
    (store : OssStore) (k : String) (o : Obj) (c : Client) (svc' : SvcState)
    (hget : getClient mk configs configName svc = (some c, svc'))
    (hlen : (candidatesOf store (dirPre directory)).length ≤ 1000)
    (hmem : (k, o) ∈ store.objs)
    (hpre : (dirPre directory).data.isPrefixOf k.data = true)
    (hrem : k.data.drop (dirPre directory).data.length ≠ [])
    (hnos : (k.data.drop (dirPre directory).data.length).any (fun c => c == '/') = false)
    (hpat : patternFilter pattern ⟨k.data.drop (dirPre directory).data.length⟩ = true) :
    ∃ fs, (listFiles mk configs svc directory configName pattern store).outcome.files
        = some fs ∧
      (⟨⟨k.data.drop (dirPre directory).data.length⟩, o.size, o.lastModified⟩ : FileEntry)
        ∈ fs := by
  refine ⟨List.insertionSort fileLe
      ((ossList store (dirPre directory) 1000).filterMap
        (entryFor (dirPre directory) pattern)), ?_, ?_⟩
  · simp only [listFiles, hget]
  rw [List.mem_insertionSort]
  obtain ⟨t, ht⟩ := List.isPrefixOf_iff_prefix.mp hpre
  have hdropt : k.data.drop (dirPre directory).data.length = t := by
    rw [← ht, List.drop_left]
  have hcand : (k, o) ∈ candidatesOf store (dirPre directory) := by
    rw [candidatesOf, List.mem_filter]
    exact ⟨hmem, by rw [hpre, hnos]; rfl⟩
  have hlist : (k, o) ∈ ossList store (dirPre directory) 1000 := by
    rw [ossList, List.take_of_length_le hlen]
    exact hcand
  have htne : t ≠ [] := by rw [← hdropt]; exact hrem
  have hslash : endsWithSlash k.data = false := by
    rw [endsWithSlash, ← ht, List.reverse_append]
    cases htr : t.reverse with
    | nil => exact absurd (List.reverse_eq_nil_iff.mp htr) htne
    | cons c0 cs =>
      have hc0t : c0 ∈ t := List.mem_reverse.mp (htr ▸ List.mem_cons_self c0 cs)
      simp only [List.cons_append]
      by_cases hc0 : c0 = '/'
      · subst hc0
        have : t.any (fun c => c == '/') = true :=
          List.any_eq_true.mpr ⟨'/', hc0t, by simp⟩
        rw [hdropt] at hnos
        exact absurd this (by rw [hnos]; simp)
      · simp [hc0]
  have hef : entryFor (dirPre directory) pattern (k, o)
      = some ⟨⟨t⟩, o.size, o.lastModified⟩ := by
    simp only [entryFor]
    rw [hslash, if_neg Bool.false_ne_true, removeFirstOcc_of_isPrefixOf _ _ hpre, hdropt]
    rw [hdropt] at hpat
    rw [if_neg htne, if_pos hpat]
  rw [List.mem_filterMap]
  refine ⟨(k, o), hlist, ?_⟩
  rw [hdropt]
  exact hef

/-- A store with one real file and one sub-directory under img, a
directory marker, and an unrelated root object. -/
def storeImg : OssStore :=
  ⟨[("img/a.png", ⟨"AA", 4, 9⟩), ("img/sub/x.png", ⟨"XX", 5, 9⟩),
    ("img/", ⟨"", 0, 0⟩), ("root.txt", ⟨"RR", 2, 1⟩)]⟩

/-- Witness for claim C9 on storeImg: img/a.png appears in the listing of
the img directory. -/
theorem listFiles_complete_le1000_witness :
    ((candidatesOf storeImg (dirPre "img")).length ≤ 1000 ∧
        ("img/a.png", (⟨"AA", 4, 9⟩ : Obj)) ∈ storeImg.objs) ∧
      ∃ fs, (listFiles mkAlways cfgs1 SvcState.empty "img" "default" none
          storeImg).outcome.files = some fs ∧
        (⟨⟨("img/a.png".data.drop (dirPre "img").data.length)⟩, 4, 9⟩ : FileEntry) ∈ fs :=
  ⟨⟨by decide, by decide⟩,
    listFiles_complete_le1000 mkAlways cfgs1 SvcState.empty "img" "default" none storeImg
      "img/a.png" ⟨"AA", 4, 9⟩ client0 svc1 (by decide) (by decide) (by decide) (by decide)
      (by decide) (by decide) (by decide)⟩

/-- The object every key of the large store is bound to. -/
def obj9 : Obj := ⟨"X", 1, 0⟩

/-- A store with 1001 keys k0 .. k1000 at the bucket root. -/
def store9 : OssStore := ⟨(List.range 1001).map (fun i => ("k" ++ toString i, obj9))⟩

set_option maxRecDepth 100000 in
/-- Claim C9 counterexample: store9 holds the object k1000, the key sits
directly under the empty prefix and matches the pattern k1000, yet the
listing comes back empty — the single list call is capped at max-keys
1000 and the code never paginates, so the 1001st candidate is dropped and
the listing is not complete. -/
theorem listFiles_misses_object_beyond_1000 :
    ("k1000", obj9) ∈ store9.objs ∧
      patternFilter (some "k1000") "k1000" = true ∧
      (listFiles mkAlways cfgs1 SvcState.empty "" "default" (some "k1000")
          store9).outcome.files = some [] := by
  refine ⟨?_, by decide, ?_⟩
  · decide
  · decide

/-- A response the network oracle hands back for a requested URL. -/
structure HttpResp where
  status : Nat
  location : Option String
  body : String
deriving DecidableEq, Repr

/-- The relevant slice of the local filesystem: regular files with their
contents, and directories. -/
structure LocalFS where
  files : List (String × String)
  dirs : List String
deriving DecidableEq, Repr

/-- fs.existsSync: the path names either a file or a directory. -/
def fsExists (fs : LocalFS) (p : String) : Bool :=
  fs.files.any (fun q => q.1 == p) || fs.dirs.any (fun d => d == p)

/-- statSync(p).isDirectory(): the path names a directory. -/
def fsIsDir (fs : LocalFS) (p : String) : Bool :=
  fs.dirs.any (fun d => d == p)

/-- fs.mkdirSync(p, recursive): record the new directory. -/
def mkdirRec (fs : LocalFS) (p : String) : LocalFS :=
  ⟨fs.files, p :: fs.dirs⟩

/-- Write a file at the path, replacing any previous content. -/
def fsWrite (fs : LocalFS) (p content : String) : LocalFS :=
  ⟨(p, content) :: fs.files.filter (fun q => !(q.1 == p)), fs.dirs⟩

/-- path.join of a directory and a file name: insert a separator unless
the directory already ends with one. -/
def pathJoin (d f : String) : String :=
  if endsWithSlash d.data then d ++ f else d ++ "/" ++ f

/-- Drop everything through the first double slash of the URL, leaving
host and path. -/
def dropThroughSlashSlash : List Char → List Char
  | [] => []
  | '/' :: '/' :: rest => rest
  | _ :: t => dropThroughSlashSlash t

/-- The pathname of a URL: from the first slash after the scheme and host
up to the query or fragment. -/
def urlPathname (url : String) : List Char :=
  ((dropThroughSlashSlash url.data).dropWhile (fun c => !(c == '/'))).takeWhile
    (fun c => !(c == '?') && !(c == '#'))

/-- path.basename: ignore trailing separators, then keep the last
component. -/
def basenameChars (p : List Char) : List Char :=
  (((p.reverse.dropWhile (fun c => c == '/')).reverse).reverse.takeWhile
    (fun c => !(c == '/'))).reverse

/-- The name derived from the URL: the basename of the pathname, or a
download-stamped fallback built from the current time when the URL has no
usable basename. -/
def urlDerivedName (url : String) (now : Nat) : String :=
  if (⟨basenameChars (urlPathname url)⟩ : String) = ""
      ∨ (⟨basenameChars (urlPathname url)⟩ : String) = "/" then
    "download_" ++ toString now
  else ⟨basenameChars (urlPathname url)⟩

/-- The saved file name (server.ts lines 350-358): the explicit fileName
when present and nonempty (an empty string is falsy in JavaScript),
otherwise the name derived from the URL. -/
def deriveFileName (fileName : Option String) (url : String) (now : Nat) : String :=
  match fileName with
  | some f => if f = "" then urlDerivedName url now else f
  | none => urlDerivedName url now

/-- What the download tool reports. -/
structure DownloadOutcome where
  success : Bool
  savedPath : Option String
  error : Option String
deriving DecidableEq, Repr

/-- A download run: outcome, filesystem afterwards, and the URLs actually
requested over the network in order. -/
structure DownloadStep where
  outcome : DownloadOutcome
  fs : LocalFS
  net : List String
deriving Repr

/-- The network phase of the download (server.ts lines 368-428), entered
only after all local checks passed: request the URL, follow a single
301/302 redirect hop when a location header is present, fail on any other
non-200 status, and write the body to the target path on 200. -/
def downloadNet (net : String → HttpResp) (url fp : String) (fs1 : LocalFS) : DownloadStep :=
  if ((net url).status = 301 ∨ (net url).status = 302) ∧ (net url).location.isSome then
    match (net url).location with
    | none => ⟨⟨false, none, some "下载失败"⟩, fs1, [url]⟩
    | some loc =>
      if (net loc).status = 200 then
        ⟨⟨true, some fp, none⟩, fsWrite fs1 fp (net loc).body, [url, loc]⟩
      else
        ⟨⟨false, none, some "下载失败，HTTP 状态码"⟩, fs1, [url, loc]⟩
  else
    if (net url).status = 200 then
      ⟨⟨true, some fp, none⟩, fsWrite fs1 fp (net url).body, [url]⟩
    else
      ⟨⟨false, none, some "下载失败，HTTP 状态码"⟩, fs1, [url]⟩

/-- The local phase of the download after the directory was ensured: fail
when the target is not a directory, derive the file name and the joined
target path, fail when that path already exists, and only then enter the
network phase. -/
def downloadChecked (net : String → HttpResp) (url targetDir : String)
    (fileName : Option String) (now : Nat) (fs1 : LocalFS) : DownloadStep :=
  if fsIsDir fs1 targetDir = false then
    ⟨⟨false, none, some ("路径不是目录: " ++ targetDir)⟩, fs1, []⟩
  else if fsExists fs1 (pathJoin targetDir (deriveFileName fileName url now)) then
    ⟨⟨false, none, some ("文件已存在: "
      ++ pathJoin targetDir (deriveFileName fileName url now))⟩, fs1, []⟩
  else
    downloadNet net url (pathJoin targetDir (deriveFileName fileName url now)) fs1

/-- Embedding of the download_file tool handler (server.ts lines 334-443):
create the target directory when missing, then run the local checks and
the network phase. -/
def downloadFile (net : String → HttpResp) (url targetDir : String)
    (fileName : Option String) (now : Nat) (fs : LocalFS) : DownloadStep :=
  downloadChecked net url targetDir fileName now
    (if fsExists fs targetDir then fs else mkdirRec fs targetDir)

/-- Helper for claim C10: once the target path exists in the filesystem
the checked phase sees, it fails with no network request and returns that
filesystem unchanged. -/
theorem downloadChecked_target_exists (net : String → HttpResp) (url targetDir : String)
    (fileName : Option String) (now : Nat) (fs1 : LocalFS)
    (h : fsExists fs1 (pathJoin targetDir (deriveFileName fileName url now)) = true) :
    (downloadChecked net url targetDir fileName now fs1).outcome.success = false ∧
      (downloadChecked net url targetDir fileName now fs1).outcome.error.isSome = true ∧
      (downloadChecked net url targetDir fileName now fs1).net = [] ∧
      (downloadChecked net url targetDir fileName now fs1).fs = fs1 := by
  rw [downloadChecked]
  by_cases hdir : fsIsDir fs1 targetDir = false
  · rw [if_pos hdir]
    exact ⟨rfl, rfl, rfl, rfl⟩
  · rw [if_neg hdir, if_pos h]
    exact ⟨rfl, rfl, rfl, rfl⟩

/-- Claim C10: when the computed target path (target directory joined with
the derived file name) already exists locally, the download tool fails
before requesting anything over the network, and no file content changes
— in particular the existing file is untouched. -/
theorem downloadFile_target_exists_no_network
    (net : String → HttpResp) (url targetDir : String) (fileName : Option String)
    (now : Nat) (fs : LocalFS)
    (h : fsExists fs (pathJoin targetDir (deriveFileName fileName url now)) = true) :
    (downloadFile net url targetDir fileName now fs).outcome.success = false ∧
      (downloadFile net url targetDir fileName now fs).outcome.error.isSome = true ∧
      (downloadFile net url targetDir fileName now fs).net = [] ∧
      (downloadFile net url targetDir fileName now fs).fs.files = fs.files := by
  rw [downloadFile]
  by_cases hex : fsExists fs targetDir = true
  · rw [if_pos hex]
    obtain ⟨h1, h2, h3, h4⟩ := downloadChecked_target_exists net url targetDir fileName now fs h
    exact ⟨h1, h2, h3, by rw [h4]⟩
  · rw [if_neg hex]
    have h2 : fsExists (mkdirRec fs targetDir)
        (pathJoin targetDir (deriveFileName fileName url now)) = true := by
      rw [fsExists] at h ⊢
      rcases Bool.or_eq_true_iff.mp h with hf | hd
      · rw [mkdirRec]
        exact Bool.or_eq_true_iff.mpr (Or.inl hf)
      · rw [mkdirRec]
        refine Bool.or_eq_true_iff.mpr (Or.inr ?_)
        rw [List.any_cons]
        exact Bool.or_eq_true_iff.mpr (Or.inr hd)
    obtain ⟨h1, h2', h3, h4⟩ :=
      downloadChecked_target_exists net url targetDir fileName now (mkdirRec fs targetDir) h2
    exact ⟨h1, h2', h3, by rw [h4]; rfl⟩

/-- A filesystem holding the directory dl and the file dl/x.png. -/
def fsDemo : LocalFS := ⟨[("dl/x.png", "OLD")], ["dl"]⟩

/-- A network oracle that would answer 200 with fresh content. -/
def netDemo : String → HttpResp := fun _ => ⟨200, none, "NEW"⟩

/-- Witness for claim C10: downloading onto the occupied path dl/x.png. -/
theorem downloadFile_target_exists_no_network_witness :
    fsExists fsDemo (pathJoin "dl" (deriveFileName (some "x.png") "http://e/x.png" 0)) = true ∧
      ((downloadFile netDemo "http://e/x.png" "dl" (some "x.png") 0 fsDemo).outcome.success
          = false ∧
        (downloadFile netDemo "http://e/x.png" "dl" (some "x.png") 0
            fsDemo).outcome.error.isSome = true ∧
        (downloadFile netDemo "http://e/x.png" "dl" (some "x.png") 0 fsDemo).net = [] ∧
        (downloadFile netDemo "http://e/x.png" "dl" (some "x.png") 0 fsDemo).fs.files
          = fsDemo.files) :=
  ⟨by decide,
    downloadFile_target_exists_no_network netDemo "http://e/x.png" "dl" (some "x.png") 0
      fsDemo (by decide)⟩

end OssMcp
